import Mathlib

/-!
Verification development for the command execution and interactive-session
engine of the v-ai-cli-control repository (src/executor.py, src/models.py).

The Python code is shallowly embedded: strings are `String`/`List Char`,
Python dicts keyed by session id are association lists, machine byte streams
are `List Nat`, and every external effect (process spawning, liveness,
non-blocking reads, the clock, uuid generation) is passed in explicitly as
data.  Exceptions are modelled with `Except`: a `.error` escaping a function
models an uncaught Python exception, while exceptions that the source
catches are folded into the ordinary return value exactly where the
corresponding `try/except` sits in the source.
-/

/-! ## Character classes and Python string helpers -/

/-- The single-quote character, written via its code point. -/
def sqChar : Char := Char.ofNat 39

/-- The double-quote character, written via its code point. -/
def dqChar : Char := Char.ofNat 34

/-- The backslash character, written via its code point. -/
def bslChar : Char := Char.ofNat 92

/-- Whitespace as used by Python `str.split()` / `str.strip()` (ASCII part:
space, tab, newline, carriage return, vertical tab, form feed). -/
def isPyWs (c : Char) : Bool :=
  c = ' ' ∨ c = Char.ofNat 9 ∨ c = Char.ofNat 10 ∨ c = Char.ofNat 13 ∨
  c = Char.ofNat 11 ∨ c = Char.ofNat 12

/-- Whitespace as used by `shlex` (`self.whitespace = " \t\r\n"`). -/
def isShWs (c : Char) : Bool :=
  c = ' ' ∨ c = Char.ofNat 9 ∨ c = Char.ofNat 13 ∨ c = Char.ofNat 10

/-- Python `str.strip()` on a character list. -/
def pyStrip (l : List Char) : List Char :=
  ((l.dropWhile isPyWs).reverse.dropWhile isPyWs).reverse

/-- Python `str.split()` (no argument): split on runs of whitespace,
discarding empty fields. -/
def pySplit : List Char → List (List Char)
  | [] => []
  | c :: cs =>
    if isPyWs c then pySplit cs
    else
      match pySplit cs with
      | [] => [[c]]
      | t :: ts =>
        match cs with
        | [] => [[c]]
        | c2 :: _ => if isPyWs c2 then [c] :: t :: ts else (c :: t) :: ts

/-- Python's `in` test for strings: substring containment. -/
def pyContains (pat s : List Char) : Bool := decide (pat <:+: s)

/-! ## The `shlex.split` tokenizer (posix mode, `whitespace_split = True`,
comments disabled), as called by `models.py` and `executor.py`.

States of `shlex.read_token`: `ws` is the between-token state `" "`, `word`
is the in-word state `"a"`, `sq`/`dq` are the quote states (state = the
quote character), `escWord`/`escDq` are the escape state `"\"` with
`escapedstate` `"a"` / `"\""` respectively. -/

inductive SState where
  | ws | word | sq | dq | escWord | escDq
deriving DecidableEq, Repr

/-- Classification of an input character, in the order the branches of
`shlex.read_token` test it. -/
inductive CClass where
  | wsp | squo | dquo | esc | other
deriving DecidableEq, Repr

/-- Classify one character for the `shlex` state machine. -/
def cclass (c : Char) : CClass :=
  if isShWs c then .wsp
  else if c = sqChar then .squo
  else if c = dqChar then .dquo
  else if c = bslChar then .esc
  else .other

/-- Build a `String` back from a token character list. -/
def mkStr (l : List Char) : String := ⟨l⟩

/-- One pass of `shlex.split` (posix, whitespace_split, no comments):
`st` is the lexer state, `tok` the token accumulated so far, `q` the
`quoted` flag of the current token.  `.error` carries the message of the
`ValueError` that `shlex` raises. -/
def shlexAux : SState → List Char → Bool → List Char → Except String (List (List Char))
  | .ws, tok, q, [] =>
    .ok (if tok.isEmpty ∧ ¬q then [] else [tok])
  | .ws, tok, q, c :: cs =>
    match cclass c with
    | .wsp =>
      if tok.isEmpty ∧ ¬q then shlexAux .ws tok q cs
      else
        match shlexAux .ws [] false cs with
        | .ok ts => .ok (tok :: ts)
        | .error e => .error e
    | .squo => shlexAux .sq tok q cs
    | .dquo => shlexAux .dq tok q cs
    | .esc => shlexAux .escWord tok q cs
    | .other => shlexAux .word [c] q cs
  | .word, tok, q, [] =>
    .ok (if tok.isEmpty ∧ ¬q then [] else [tok])
  | .word, tok, q, c :: cs =>
    match cclass c with
    | .wsp =>
      if tok.isEmpty ∧ ¬q then shlexAux .ws tok q cs
      else
        match shlexAux .ws [] false cs with
        | .ok ts => .ok (tok :: ts)
        | .error e => .error e
    | .squo => shlexAux .sq tok q cs
    | .dquo => shlexAux .dq tok q cs
    | .esc => shlexAux .escWord tok q cs
    | .other => shlexAux .word (tok ++ [c]) q cs
  | .sq, _, _, [] => .error "No closing quotation"
  | .sq, tok, _, c :: cs =>
    if c = sqChar then shlexAux .word tok true cs
    else shlexAux .sq (tok ++ [c]) true cs
  | .dq, _, _, [] => .error "No closing quotation"
  | .dq, tok, _, c :: cs =>
    if c = dqChar then shlexAux .word tok true cs
    else if c = bslChar then shlexAux .escDq tok true cs
    else shlexAux .dq (tok ++ [c]) true cs
  | .escWord, _, _, [] => .error "No escaped character"
  | .escWord, tok, q, c :: cs => shlexAux .word (tok ++ [c]) q cs
  | .escDq, _, _, [] => .error "No escaped character"
  | .escDq, tok, q, c :: cs =>
    shlexAux .dq (tok ++ (if c = bslChar ∨ c = dqChar then [c] else [bslChar, c])) q cs

/-- `shlex.split(s)` on a character list. -/
def shlexSplit (l : List Char) : Except String (List (List Char)) :=
  shlexAux .ws [] false l

/-! ## Quote annotation

Formalisation of the spec phrase "outside quotes": running the same state
machine as the tokenizer, each input character is paired with a flag that is
`true` exactly when the character is consumed at top level (state `ws` or
`word`), i.e. neither inside single or double quotes nor immediately after a
backslash.  `none` is returned exactly when `shlex` would raise. -/

/-- The pure state transition of the `shlex` machine on one character. -/
def shNext (st : SState) (c : Char) : SState :=
  match st with
  | .ws | .word =>
    match cclass c with
    | .wsp => .ws
    | .squo => .sq
    | .dquo => .dq
    | .esc => .escWord
    | .other => .word
  | .sq => if c = sqChar then .word else .sq
  | .dq => if c = dqChar then .word else if c = bslChar then .escDq else .dq
  | .escWord => .word
  | .escDq => .dq

/-- Annotate each character with its top-level flag. -/
def annotateAux : SState → List Char → Option (List (Char × Bool))
  | st, [] => if st = .ws ∨ st = .word then some [] else none
  | st, c :: cs =>
    match annotateAux (shNext st c) cs with
    | none => none
    | some l => some ((c, st = .ws ∨ st = .word) :: l)

/-- Annotate a whole command with top-level flags. -/
def annotateQuotes (l : List Char) : Option (List (Char × Bool)) :=
  annotateAux .ws l

/-- `pat` occurs in the annotated string entirely at top level
("outside quotes"). -/
def maskedInfix (pat : List Char) (l : List (Char × Bool)) : Bool :=
  decide ((pat.map (fun c => (c, true))) <:+: l)

/-! ## `CommandRequest.validate_command_security` (src/models.py) -/

/-- Rejection reasons of the validator; `ValueError` messages are modelled
structurally.  `dangerousPattern p` models
`Command contains potentially dangerous pattern ...` with the offending
pattern `p`. -/
inductive RejectReason where
  | emptyCommand
  | syntaxErr (msg : String)
  | dangerousPattern (pat : List Char)
deriving DecidableEq, Repr

/-- `separator_patterns = [";", "&&", "||"]`. -/
def separatorPatterns : List (List Char) := [[';'], ['&', '&'], ['|', '|']]

/-- `dangerous_tokens = {">", ">>", "|"}` (iteration order of the literal). -/
def dangerousTokens : List (List Char) := [['>'], ['>', '>'], ['|']]

/-- `dangerous_operator_substrings = [">>", ">", "|"]`. -/
def dangerousOperatorSubstrings : List (List Char) := [['>', '>'], ['>'], ['|']]

/-- `dangerous_substrings` from src/models.py. -/
def dangerousSubstrings : List (List Char) :=
  [[Char.ofNat 96], ['$', '('],
   "rm -rf /".data, "dd if=".data, "mkfs".data, "fdisk".data, "parted".data]

/-- `safe_commands` from src/models.py. -/
def safeCommands : List (List Char) :=
  ["ls".data, "pwd".data, "whoami".data, "ps".data, "df".data, "free".data,
   "uname".data, "date".data, "uptime".data, "cat".data, "grep".data,
   "find".data, "echo".data, "head".data, "tail".data]

/-- A remaining token is dangerous when it is in `dangerous_tokens` or in
`separator_patterns`. -/
def isDangerToken (t : List Char) : Bool :=
  dangerousTokens.contains t ∨ separatorPatterns.contains t

/-- `CommandRequest.validate_command_security` from src/models.py.  Each
Python `for pattern in L: if pattern in text: raise` loop is modelled by
`List.find?` over the same list in the same order. -/
def validateCommandSecurity (vs : String) : Except RejectReason String :=
  let vd := vs.data
  if vd.isEmpty ∨ (pyStrip vd).isEmpty then .error .emptyCommand
  else
    let v := pyStrip vd
    match shlexSplit v with
    | .error m => .error (.syntaxErr m)
    | .ok toks =>
      match toks with
      | [] => .error .emptyCommand
      | firstToken :: rest =>
        match dangerousOperatorSubstrings.find? (fun p => pyContains p v) with
        | some p => .error (.dangerousPattern p)
        | none =>
          if safeCommands.contains firstToken then
            match rest.find? isDangerToken with
            | some t => .error (.dangerousPattern t)
            | none =>
              match dangerousSubstrings.find? (fun p => pyContains p v) with
              | some p => .error (.dangerousPattern p)
              | none =>
                match separatorPatterns.find?
                    (fun p => pyContains p (v.drop firstToken.length)) with
                | some p => .error (.dangerousPattern p)
                | none => .ok (mkStr v)
          else
            match (firstToken :: rest).find? isDangerToken with
            | some t => .error (.dangerousPattern t)
            | none =>
              match separatorPatterns.find? (fun p => pyContains p v) with
              | some p => .error (.dangerousPattern p)
              | none =>
                match dangerousSubstrings.find? (fun p => pyContains p v) with
                | some p => .error (.dangerousPattern p)
                | none => .ok (mkStr v)

/-! ## UTF-8 decoding with replacement

Model of CPython `bytes.decode("utf-8", errors="replace")`: a total function
replacing each maximal invalid subpart with U+FFFD, so decoding never fails. -/

/-- The replacement character U+FFFD. -/
def replChar : Char := Char.ofNat 0xFFFD

/-- Is a byte a UTF-8 continuation byte? -/
def isCont (b : Nat) : Bool := 0x80 ≤ b ∧ b ≤ 0xBF

/-- Valid second byte of a three-byte sequence with lead byte `b1`
(excluding overlong encodings and surrogates, as CPython does). -/
def cont3ok (b1 b2 : Nat) : Bool :=
  if b1 = 0xE0 then 0xA0 ≤ b2 ∧ b2 ≤ 0xBF
  else if b1 = 0xED then 0x80 ≤ b2 ∧ b2 ≤ 0x9F
  else isCont b2

/-- Valid second byte of a four-byte sequence with lead byte `b1`. -/
def cont4ok (b1 b2 : Nat) : Bool :=
  if b1 = 0xF0 then 0x90 ≤ b2 ∧ b2 ≤ 0xBF
  else if b1 = 0xF4 then 0x80 ≤ b2 ∧ b2 ≤ 0x8F
  else isCont b2

/-- Total UTF-8 decoder with U+FFFD replacement of maximal invalid
subparts. -/
def utf8DecodeReplace : List Nat → List Char
  | [] => []
  | b :: bs =>
    if b < 0x80 then Char.ofNat b :: utf8DecodeReplace bs
    else if 0xC2 ≤ b ∧ b ≤ 0xDF then
      match bs.head? with
      | none => [replChar]
      | some b2 =>
        if isCont b2 then
          Char.ofNat ((b - 0xC0) * 64 + (b2 - 0x80)) ::
            utf8DecodeReplace (bs.drop 1)
        else replChar :: utf8DecodeReplace bs
    else if 0xE0 ≤ b ∧ b ≤ 0xEF then
      match bs.head? with
      | none => [replChar]
      | some b2 =>
        if cont3ok b b2 then
          match (bs.drop 1).head? with
          | none => [replChar]
          | some b3 =>
            if isCont b3 then
              Char.ofNat ((b - 0xE0) * 4096 + (b2 - 0x80) * 64 + (b3 - 0x80)) ::
                utf8DecodeReplace (bs.drop 2)
            else replChar :: utf8DecodeReplace (bs.drop 1)
        else replChar :: utf8DecodeReplace bs
    else if 0xF0 ≤ b ∧ b ≤ 0xF4 then
      match bs.head? with
      | none => [replChar]
      | some b2 =>
        if cont4ok b b2 then
          match (bs.drop 1).head? with
          | none => [replChar]
          | some b3 =>
            if isCont b3 then
              match (bs.drop 2).head? with
              | none => [replChar]
              | some b4 =>
                if isCont b4 then
                  Char.ofNat ((b - 0xF0) * 262144 + (b2 - 0x80) * 4096 +
                      (b3 - 0x80) * 64 + (b4 - 0x80)) ::
                    utf8DecodeReplace (bs.drop 3)
                else replChar :: utf8DecodeReplace (bs.drop 2)
            else replChar :: utf8DecodeReplace (bs.drop 1)
        else replChar :: utf8DecodeReplace bs
    else replChar :: utf8DecodeReplace bs
termination_by l => l.length
decreasing_by all_goals (simp [List.length_drop]; try omega)

/-! ## The executor data model (src/executor.py) -/

/-- Uncaught Python exceptions that can escape an engine operation. -/
inductive PyErr where
  | indexError
  | keyError
  | childError
deriving DecidableEq, Repr

/-- The handle to a pexpect child process, reduced to the observations the
engine makes of it: `alive` is what `isalive()` returns during the call,
`termRaises` tells whether `terminate()`/`wait()` would raise (always caught
by the source). -/
structure ChildProc where
  alive : Bool
  termRaises : Bool := false
deriving DecidableEq, Repr

/-- One entry of `active_sessions`. -/
structure Session where
  child : ChildProc
  command : String
  createdAt : String
  lastActivity : String
  workingDir : Option String := none
deriving DecidableEq, Repr

/-- The mutable state of `CommandExecutor` (plus its immutable policy
configuration read from the environment at construction). -/
structure ExecState where
  activeSessions : List (String × Session)
  currentSessionId : Option String
  allowedCommands : Option (List String)
  restrictedPaths : List String
deriving DecidableEq, Repr

/-- `CommandResponse` from src/models.py (fields used by the engine). -/
structure CommandResponse where
  success : Bool
  exit_code : Option Int := none
  stdout : String := ""
  stderr : String := ""
  execution_time : Rat
  session_id : Option String := none
  is_interactive : Bool := false
  error_message : Option String := none
  command_executed : Option String := none
deriving DecidableEq, Repr

/-- `SessionInfo` from src/models.py (fields the executor fills). -/
structure SessionInfo where
  session_id : String
  command : String
  status : String
  created_at : String
  last_activity : String
deriving DecidableEq, Repr

/-- `CommandExecutor._is_command_allowed`: plain whitespace `str.split()`
on the command, first word membership; `None` or an empty list means no
restriction (Python falsiness of `self.allowed_commands`). -/
def isCommandAllowed (allowed : Option (List String)) (command : String) : Bool :=
  match allowed with
  | none => true
  | some l =>
    if l.isEmpty then true
    else
      let firstWord := match pySplit command.data with
        | [] => ""
        | w :: _ => mkStr w
      l.contains firstWord

/-- `CommandExecutor._check_path_restrictions`. -/
def checkPathRestrictions (restricted : List String) (command : String) : Bool :=
  restricted.all (fun r => r.isEmpty ∨ ¬ (pyContains r.data command.data : Bool))

/-- `command.split()[0]`: raises `IndexError` when the split is empty. -/
def pySplitHead (command : String) : Except PyErr String :=
  match pySplit command.data with
  | [] => .error .indexError
  | w :: _ => .ok (mkStr w)

/-- `child.terminate(); child.wait()` guarded by `isalive()`; its outcome is
always swallowed by the `except Exception: pass` in `_cleanup_session`. -/
def childTerminate (c : ChildProc) : Except PyErr Unit :=
  if c.alive then (if c.termRaises then .error .childError else .ok ()) else .ok ()

/-- `CommandExecutor._cleanup_session`: terminate the child if alive
(ignoring any exception), delete the registry entry, clear
`current_session_id` when it pointed at this session. -/
def cleanupSession (st : ExecState) (sid : String) : ExecState :=
  match List.lookup sid st.activeSessions with
  | none => st
  | some sess =>
    let _ : Except PyErr Unit := childTerminate sess.child
    { st with
      activeSessions := st.activeSessions.filter (fun p => decide (p.1 ≠ sid)),
      currentSessionId :=
        if st.currentSessionId = some sid then none else st.currentSessionId }

/-- `CommandExecutor.cleanup_inactive_sessions`: collect the ids of entries
whose child is no longer alive, clean each up, and clear
`current_session_id` when the registry ended up empty. -/
def cleanupInactiveSessions (st : ExecState) : ExecState :=
  let inactive :=
    (st.activeSessions.filter (fun p => !p.2.child.alive)).map Prod.fst
  let st2 := inactive.foldl cleanupSession st
  if st2.activeSessions.isEmpty then { st2 with currentSessionId := none } else st2

/-- `CommandExecutor._has_active_session`; also performs the lazy cleanup
the source does (clearing a dangling id, sweeping a dead current session).
The check `if not self.current_session_id` is falsy both for `None` and for
the empty string. -/
def hasActiveSession (st : ExecState) : Bool × ExecState :=
  match st.currentSessionId with
  | none => (false, st)
  | some sid =>
    if sid = "" then (false, st)
    else
      match List.lookup sid st.activeSessions with
      | none => (false, { st with currentSessionId := none })
      | some sess =>
        if !sess.child.alive then (false, cleanupSession st sid)
        else (true, st)

/-! ## Engine operations -/

/-- Outcome of the one-shot subprocess, seen from
`execute_simple_command`: the process completes before the timeout (with an
exit code and captured byte streams), the `asyncio.wait_for` deadline
fires, or spawning itself raises. -/
inductive ProcOutcome where
  | completes (exitCode : Int) (out err : List Nat)
  | timesOut
  | spawnRaises (msg : String)
deriving DecidableEq, Repr

/-- External data consumed by one `execute_simple_command` call: the process
outcome and the two `time.time()` readings (at entry and at response
construction). -/
structure SimpleExt where
  outcome : ProcOutcome
  t0 : Rat
  t1 : Rat
deriving DecidableEq, Repr

/-- Process-management actions performed on the child, recorded so that the
kill-then-wait behaviour on timeout is observable. -/
inductive PAction where
  | kill
  | wait
deriving DecidableEq, Repr

/-- `CommandExecutor.execute_simple_command`.  A `.error` result models an
uncaught exception escaping the method (possible only in the "not allowed"
message construction, which subscripts an empty split). -/
def executeSimpleCommand (st : ExecState) (command : String) (timeout : Nat)
    (ext : SimpleExt) : Except PyErr (List PAction × CommandResponse) :=
  if ¬ isCommandAllowed st.allowedCommands command then
    match pySplitHead command with
    | .error e => .error e
    | .ok w =>
      .ok ([], { success := false, execution_time := 0,
                 error_message := some ("Command not allowed: " ++ w) })
  else if ¬ checkPathRestrictions st.restrictedPaths command then
    .ok ([], { success := false, execution_time := 0,
               error_message := some "Command accesses restricted paths" })
  else
    match ext.outcome with
    | .completes ec out err =>
      .ok ([], { success := ec == 0, exit_code := some ec,
                 stdout := mkStr (utf8DecodeReplace out),
                 stderr := mkStr (utf8DecodeReplace err),
                 execution_time := ext.t1 - ext.t0 })
    | .timesOut =>
      .ok ([.kill, .wait],
           { success := false,
             error_message :=
               some ("Command timed out after " ++ toString timeout ++ " seconds"),
             execution_time := ext.t1 - ext.t0 })
    | .spawnRaises msg =>
      .ok ([], { success := false,
                 error_message := some ("Execution error: " ++ msg),
                 execution_time := ext.t1 - ext.t0 })

/-- Outcome of `pexpect.spawn`. -/
inductive SpawnOutcome where
  | ok (child : ChildProc)
  | raises (msg : String)
deriving DecidableEq, Repr

/-- Outcome of one bounded `read_nonblocking` call: data arrived, the read
timed out with no data (`pexpect.TIMEOUT`), or end-of-stream was observed
(`pexpect.EOF`). -/
inductive ReadOutcome where
  | data (bytes : List Nat)
  | timedOut
  | eof
deriving DecidableEq, Repr

/-- External data consumed by one `start_interactive_command` call. -/
structure StartExt where
  newId : String
  spawn : SpawnOutcome
  initRead : ReadOutcome
  createdAt : String
  t0 : Rat
  t1 : Rat
deriving DecidableEq, Repr

/-- The fixed message of the single-session rejection. -/
def alreadyActiveMsg : String :=
  "An interactive session is already active. Terminate the current session before starting a new one."

/-- `CommandExecutor.start_interactive_command`. -/
def startInteractiveCommand (st : ExecState) (command : String)
    (workingDir : Option String) (ext : StartExt) :
    Except PyErr (ExecState × String × CommandResponse) :=
  if ¬ isCommandAllowed st.allowedCommands command then
    match pySplitHead command with
    | .error e => .error e
    | .ok w =>
      .ok (st, "", { success := false, execution_time := 0,
                     error_message := some ("Command not allowed: " ++ w) })
  else if ¬ checkPathRestrictions st.restrictedPaths command then
    .ok (st, "", { success := false, execution_time := 0,
                   error_message := some "Command accesses restricted paths" })
  else
    let st1 := cleanupInactiveSessions st
    match hasActiveSession st1 with
    | (true, st2) =>
      match st2.currentSessionId with
      | none => .error .keyError
      | some sid =>
        match List.lookup sid st2.activeSessions with
        | none => .error .keyError
        | some sess =>
          .ok (st2, "",
               { success := false, stdout := "", stderr := "",
                 execution_time := 0, session_id := some sid,
                 is_interactive := true,
                 error_message := some alreadyActiveMsg,
                 command_executed := some sess.command })
    | (false, st2) =>
      match shlexSplit command.data with
      | .error m =>
        .ok (st2, "",
             { success := false, execution_time := ext.t1 - ext.t0,
               error_message :=
                 some ("Failed to start interactive command: Failed to parse command: " ++ m) })
      | .ok [] =>
        .ok (st2, "",
             { success := false, execution_time := ext.t1 - ext.t0,
               error_message :=
                 some "Failed to start interactive command: Command cannot be empty" })
      | .ok (_ :: _) =>
        match ext.spawn with
        | .raises msg =>
          .ok (st2, "",
               { success := false, execution_time := ext.t1 - ext.t0,
                 error_message :=
                   some ("Failed to start interactive command: " ++ msg) })
        | .ok child =>
          let sess : Session :=
            { child := child, command := command, createdAt := ext.createdAt,
              lastActivity := ext.createdAt, workingDir := workingDir }
          let st3 := { st2 with activeSessions := [(ext.newId, sess)],
                                currentSessionId := some ext.newId }
          let initialOut :=
            match ext.initRead with
            | .data bs => mkStr (utf8DecodeReplace bs)
            | .timedOut => ""
            | .eof => ""
          .ok (st3, ext.newId,
               { success := true, stdout := initialOut,
                 execution_time := ext.t1 - ext.t0,
                 session_id := some ext.newId, is_interactive := true })

/-- External data consumed by one `send_interactive_input` call:
whether `sendline`/`send` raises, the read outcome, the
`datetime.now().isoformat()` string and the two clock readings. -/
structure SendExt where
  sendRaises : Option String
  read : ReadOutcome
  nowTs : String
  t0 : Rat
  t1 : Rat
deriving DecidableEq, Repr

/-- Update `session["last_activity"]` in place. -/
def updateActivity (l : List (String × Session)) (sid : String) (ts : String) :
    List (String × Session) :=
  l.map (fun p => if p.1 = sid then (p.1, { p.2 with lastActivity := ts }) else p)

/-- `CommandExecutor.send_interactive_input`. -/
def sendInteractiveInput (st : ExecState) (sid : String) (inputText : String)
    (sendNewline : Bool) (ext : SendExt) : ExecState × CommandResponse :=
  if some sid ≠ st.currentSessionId ∨ (List.lookup sid st.activeSessions).isNone then
    (st, { success := false, error_message := some "Session not found",
           execution_time := 0 })
  else
    match List.lookup sid st.activeSessions with
    | none =>
      (st, { success := false, error_message := some "Session not found",
             execution_time := 0 })
    | some _ =>
      match ext.sendRaises with
      | some msg =>
        (st, { success := false,
               error_message := some ("Error sending input: " ++ msg),
               execution_time := ext.t1 - ext.t0, session_id := some sid })
      | none =>
        let st2 := { st with
          activeSessions := updateActivity st.activeSessions sid ext.nowTs }
        match ext.read with
        | .eof =>
          (cleanupSession st2 sid,
           { success := true, stdout := "",
             execution_time := ext.t1 - ext.t0, session_id := some sid,
             is_interactive := false })
        | .timedOut =>
          (st2, { success := true, stdout := "",
                  execution_time := ext.t1 - ext.t0, session_id := some sid,
                  is_interactive := true })
        | .data bs =>
          (st2, { success := true, stdout := mkStr (utf8DecodeReplace bs),
                  execution_time := ext.t1 - ext.t0, session_id := some sid,
                  is_interactive := true })

/-- `CommandExecutor.get_session_info`. -/
def getSessionInfo (st : ExecState) (sid : String) :
    ExecState × Option SessionInfo :=
  let st2 := cleanupInactiveSessions st
  match List.lookup sid st2.activeSessions with
  | none => (st2, none)
  | some sess =>
    (st2, some { session_id := sid, command := sess.command,
                 status := if sess.child.alive then "active" else "terminated",
                 created_at := sess.createdAt,
                 last_activity := sess.lastActivity })

/-- `CommandExecutor.list_active_sessions`. -/
def listActiveSessions (st : ExecState) : ExecState × List SessionInfo :=
  let st2 := cleanupInactiveSessions st
  (st2, st2.activeSessions.map (fun p =>
    { session_id := p.1, command := p.2.command,
      status := if p.2.child.alive then "active" else "terminated",
      created_at := p.2.createdAt, last_activity := p.2.lastActivity }))

/-- `CommandExecutor.terminate_session`. -/
def terminateSession (st : ExecState) (sid : String) : ExecState × Bool :=
  if (List.lookup sid st.activeSessions).isNone then (st, false)
  else (cleanupSession st sid, true)

/-! ## Helper lemmas about the registry primitives -/

theorem lookup_none_keys {α β : Type} [BEq α] [LawfulBEq α]
    {sid : α} {l : List (α × β)} (h : List.lookup sid l = none) :
    ∀ p ∈ l, p.1 ≠ sid := by
  induction l with
  | nil => intro p hp; cases hp
  | cons a as ih =>
    obtain ⟨k, b⟩ := a
    intro p hp
    rw [List.lookup_cons] at h
    cases hbeq : sid == k with
    | true => rw [hbeq] at h; cases h
    | false =>
      rw [hbeq] at h
      rw [List.mem_cons] at hp
      rcases hp with rfl | hp
      · exact fun hc => (beq_eq_false_iff_ne.mp hbeq) hc.symm
      · exact ih h p hp

theorem keys_ne_lookup_none {α β : Type} [BEq α] [LawfulBEq α]
    {sid : α} {l : List (α × β)} (h : ∀ p ∈ l, p.1 ≠ sid) :
    List.lookup sid l = none := by
  induction l with
  | nil => rfl
  | cons a as ih =>
    obtain ⟨k, b⟩ := a
    rw [List.lookup_cons]
    have hk : k ≠ sid := h (k, b) (by simp)
    have hbeq : (sid == k) = false := beq_eq_false_iff_ne.mpr (fun hc => hk hc.symm)
    rw [hbeq]
    exact ih (fun p hp => h p (by simp [hp]))

theorem lookup_filter_self {sid : String} {l : List (String × Session)} :
    List.lookup sid (l.filter fun p => decide (p.1 ≠ sid)) = none := by
  apply keys_ne_lookup_none
  intro p hp
  have := List.of_mem_filter hp
  simpa using this

theorem cleanupSession_mem {st : ExecState} {sid : String} {p : String × Session}
    (hp : p ∈ (cleanupSession st sid).activeSessions) :
    p ∈ st.activeSessions ∧ p.1 ≠ sid := by
  unfold cleanupSession at hp
  cases h : List.lookup sid st.activeSessions with
  | none =>
    rw [h] at hp
    exact ⟨hp, lookup_none_keys h p hp⟩
  | some sess =>
    rw [h] at hp
    simp only at hp
    refine ⟨List.mem_of_mem_filter hp, ?_⟩
    have := List.of_mem_filter hp
    simpa using this

theorem foldl_cleanup_mem {ids : List String} {st : ExecState}
    {p : String × Session}
    (hp : p ∈ (ids.foldl cleanupSession st).activeSessions) :
    p ∈ st.activeSessions ∧ p.1 ∉ ids := by
  induction ids generalizing st with
  | nil => simpa using hp
  | cons i is ih =>
    simp only [List.foldl_cons] at hp
    obtain ⟨h1, h2⟩ := ih hp
    obtain ⟨h3, h4⟩ := cleanupSession_mem h1
    exact ⟨h3, by simp [h4, h2]⟩

theorem cleanupInactive_mem {st : ExecState} {p : String × Session}
    (hp : p ∈ (cleanupInactiveSessions st).activeSessions) :
    p ∈ st.activeSessions ∧ p.2.child.alive = true := by
  unfold cleanupInactiveSessions at hp
  have hp' : p ∈ ((((st.activeSessions.filter
      (fun p => !p.2.child.alive)).map Prod.fst).foldl cleanupSession st)).activeSessions := by
    by_cases he : ((((st.activeSessions.filter
        (fun p => !p.2.child.alive)).map Prod.fst).foldl cleanupSession st)).activeSessions.isEmpty
    · simp only [he, if_pos] at hp; exact hp
    · simp only [he, if_neg] at hp; simpa using hp
  obtain ⟨h1, h2⟩ := foldl_cleanup_mem hp'
  refine ⟨h1, ?_⟩
  by_cases ha : p.2.child.alive
  · exact ha
  · exfalso
    exact h2 (List.mem_map_of_mem Prod.fst
      (List.mem_filter.2 ⟨h1, by simp [ha]⟩))

theorem cleanupInactive_absent {st : ExecState} {sid : String}
    (h : List.lookup sid st.activeSessions = none) :
    List.lookup sid (cleanupInactiveSessions st).activeSessions = none := by
  apply keys_ne_lookup_none
  intro p hp
  exact lookup_none_keys h p (cleanupInactive_mem hp).1

/-! ## The registry invariant (claim C9) -/

/-- The registry's well-formedness: `current_session_id` is `None` or a key
of `active_sessions`, and at most one session entry exists.  Stated as a
boolean so that it can be decided on concrete states. -/
def regWfB (st : ExecState) : Bool :=
  (match st.currentSessionId with
   | none => true
   | some sid => (List.lookup sid st.activeSessions).isSome) &&
  decide (st.activeSessions.length ≤ 1)

/-- Propositional form of the registry invariant. -/
def RegWf (st : ExecState) : Prop := regWfB st = true

theorem regWf_iff {st : ExecState} :
    RegWf st ↔
      ((∀ sid, st.currentSessionId = some sid →
          (List.lookup sid st.activeSessions).isSome = true) ∧
       st.activeSessions.length ≤ 1) := by
  unfold RegWf regWfB
  cases h : st.currentSessionId with
  | none => simp [h]
  | some sid => simp [h]

theorem lookup_filter_ne {sid k : String} {l : List (String × Session)}
    (hne : sid ≠ k) :
    List.lookup sid (l.filter fun p => decide (p.1 ≠ k)) = List.lookup sid l := by
  induction l with
  | nil => rfl
  | cons a as ih =>
    obtain ⟨a1, a2⟩ := a
    by_cases hk : a1 = k
    · subst hk
      have hbeq : (sid == a1) = false := beq_eq_false_iff_ne.mpr hne
      simp only [List.filter_cons, decide_eq_true_eq]
      rw [if_neg (by simp)]
      rw [List.lookup_cons, hbeq]
      exact ih
    · simp only [List.filter_cons, decide_eq_true_eq]
      rw [if_pos (by simp [hk])]
      rw [List.lookup_cons, List.lookup_cons]
      cases hbeq : sid == a1 with
      | true => rfl
      | false => exact ih

theorem cleanupSession_regWf {st : ExecState} {k : String} (h : RegWf st) :
    RegWf (cleanupSession st k) := by
  rw [regWf_iff] at h ⊢
  obtain ⟨h1, h2⟩ := h
  unfold cleanupSession
  cases hl : List.lookup k st.activeSessions with
  | none => exact ⟨h1, h2⟩
  | some sess =>
    constructor
    · intro sid hsid
      simp only at hsid
      by_cases hc : st.currentSessionId = some k
      · rw [if_pos hc] at hsid; cases hsid
      · rw [if_neg hc] at hsid
        have hne : sid ≠ k := by
          intro hcontra; subst hcontra; exact hc hsid
        simp only
        rw [lookup_filter_ne hne]
        exact h1 sid hsid
    · simp only
      exact le_trans (List.length_filter_le _ _) h2

theorem foldl_cleanup_regWf {ids : List String} {st : ExecState} (h : RegWf st) :
    RegWf (ids.foldl cleanupSession st) := by
  induction ids generalizing st with
  | nil => exact h
  | cons i is ih => exact ih (cleanupSession_regWf h)

theorem cleanupInactive_regWf {st : ExecState} (h : RegWf st) :
    RegWf (cleanupInactiveSessions st) := by
  unfold cleanupInactiveSessions
  have hfold : RegWf (((st.activeSessions.filter
      (fun p => !p.2.child.alive)).map Prod.fst).foldl cleanupSession st) :=
    foldl_cleanup_regWf h
  set st2 := ((st.activeSessions.filter
    (fun p => !p.2.child.alive)).map Prod.fst).foldl cleanupSession st with hst2
  by_cases he : st2.activeSessions.isEmpty
  · rw [if_pos he]
    rw [regWf_iff] at hfold ⊢
    exact ⟨fun sid hsid => (by cases hsid), hfold.2⟩
  · rw [if_neg he]; exact hfold

theorem hasActive_regWf {st : ExecState} (h : RegWf st) :
    RegWf (hasActiveSession st).2 := by
  cases hc : st.currentSessionId with
  | none => simpa [hasActiveSession, hc] using h
  | some sid =>
    by_cases hemp : sid = ""
    · simpa [hasActiveSession, hc, hemp] using h
    · cases hl : List.lookup sid st.activeSessions with
      | none =>
        simp only [hasActiveSession, hc, hl, if_neg hemp]
        rw [regWf_iff] at h ⊢
        refine ⟨fun s hs => ?_, h.2⟩
        simp at hs
      | some sess =>
        by_cases ha : sess.child.alive = true
        · simpa [hasActiveSession, hc, hl, hemp, ha] using h
        · have ha' : sess.child.alive = false := by simpa using ha
          simp only [hasActiveSession, hc, hl, if_neg hemp, ha', Bool.not_false,
            if_pos]
          exact cleanupSession_regWf h

theorem lookup_updateActivity {sid k : String} {ts : String}
    {l : List (String × Session)} :
    (List.lookup sid (updateActivity l k ts)).isSome =
      (List.lookup sid l).isSome := by
  induction l with
  | nil => rfl
  | cons a as ih =>
    obtain ⟨a1, a2⟩ := a
    unfold updateActivity
    simp only [List.map_cons]
    by_cases hk : a1 = k
    · rw [if_pos (by simp [hk])]
      rw [List.lookup_cons, List.lookup_cons]
      cases hbeq : sid == a1 with
      | true => rfl
      | false => exact ih
    · rw [if_neg (by simp [hk])]
      rw [List.lookup_cons, List.lookup_cons]
      cases hbeq : sid == a1 with
      | true => rfl
      | false => exact ih

theorem updateActivity_length {k ts : String} {l : List (String × Session)} :
    (updateActivity l k ts).length = l.length := by
  unfold updateActivity; exact List.length_map _ _

theorem lookup_some_mem {sid : String} {sess : Session}
    {l : List (String × Session)}
    (h : List.lookup sid l = some sess) : (sid, sess) ∈ l := by
  induction l with
  | nil => cases h
  | cons a as ih =>
    obtain ⟨k, b⟩ := a
    rw [List.lookup_cons] at h
    cases hbeq : sid == k with
    | true =>
      rw [hbeq] at h
      have hb : b = sess := by injection h
      have hk : sid = k := by simpa using hbeq
      subst hb; subst hk
      exact List.mem_cons_self _ _
    | false =>
      rw [hbeq] at h
      exact List.mem_cons_of_mem _ (ih h)

/-! ## Claim theorems -/

/-- C1: at most one interactive session at a time.  In every registry state
holding a live session (a non-empty current id whose single entry has a
live child), a `start_interactive_command` call whose command passes the
two security checks does not create a new session: it returns success
`false` with the existing session's id and message, and leaves both the
session entry and `current_session_id` untouched. -/
theorem c1_single_active_session_start_rejected
    (st : ExecState) (sid : String) (sess : Session) (command : String)
    (wd : Option String) (ext : StartExt)
    (hcur : st.currentSessionId = some sid) (hne : sid ≠ "")
    (hsess : st.activeSessions = [(sid, sess)])
    (halive : sess.child.alive = true)
    (hallow : isCommandAllowed st.allowedCommands command = true)
    (hpath : checkPathRestrictions st.restrictedPaths command = true) :
    startInteractiveCommand st command wd ext =
      .ok (st, "",
        { success := false, stdout := "", stderr := "", execution_time := 0,
          session_id := some sid, is_interactive := true,
          error_message := some alreadyActiveMsg,
          command_executed := some sess.command }) := by
  have hlook : List.lookup sid st.activeSessions = some sess := by
    rw [hsess, List.lookup_cons]
    simp
  have hclean : cleanupInactiveSessions st = st := by
    unfold cleanupInactiveSessions
    simp [hsess, halive]
  have hhas : hasActiveSession st = (true, st) := by
    simp [hasActiveSession, hcur, hne, hlook, halive]
  simp [startInteractiveCommand, hallow, hpath, hclean, hhas, hcur, hlook]

/-- C1 witness: a concrete live-session state rejects a second launch. -/
theorem c1_witness :
    startInteractiveCommand
      { activeSessions :=
          [("sid1", { child := { alive := true }, command := "python3",
                      createdAt := "t1", lastActivity := "t1" })],
        currentSessionId := some "sid1", allowedCommands := none,
        restrictedPaths := [] }
      "python3" none
      { newId := "sid2", spawn := .ok { alive := true }, initRead := .timedOut,
        createdAt := "t2", t0 := 0, t1 := 1 } =
      .ok ({ activeSessions :=
               [("sid1", { child := { alive := true }, command := "python3",
                           createdAt := "t1", lastActivity := "t1" })],
             currentSessionId := some "sid1", allowedCommands := none,
             restrictedPaths := [] }, "",
           { success := false, stdout := "", stderr := "", execution_time := 0,
             session_id := some "sid1", is_interactive := true,
             error_message := some alreadyActiveMsg,
             command_executed := some "python3" }) :=
  c1_single_active_session_start_rejected
    { activeSessions :=
        [("sid1", { child := { alive := true }, command := "python3",
                    createdAt := "t1", lastActivity := "t1" })],
      currentSessionId := some "sid1", allowedCommands := none,
      restrictedPaths := [] }
    "sid1"
    { child := { alive := true }, command := "python3",
      createdAt := "t1", lastActivity := "t1" }
    "python3" none
    { newId := "sid2", spawn := .ok { alive := true }, initRead := .timedOut,
      createdAt := "t2", t0 := 0, t1 := 1 }
    rfl (by decide) rfl rfl rfl rfl

/-- C3 is a code bug: `execute_simple_command` with an empty command while
an allow-list is configured raises an uncaught `IndexError` instead of
returning a structured `CommandResponse` — the rejection message formats
`command.split()[0]`, which subscripts an empty list. -/
theorem c3_empty_command_allowlist_crash :
    executeSimpleCommand
      { activeSessions := [], currentSessionId := none,
        allowedCommands := some ["ls"], restrictedPaths := [] }
      "" 30 { outcome := .timesOut, t0 := 0, t1 := 0 } =
      .error .indexError := by
  rfl

/-- C4: when the one-shot process has not exited by the deadline, the
engine kills it and then waits on it, and reports success `false`, a
timeout-specific message naming the timeout duration, and the elapsed time
measured from entry up to the clock reading taken after the kill. -/
theorem c4_timeout_kill_wait_response
    (st : ExecState) (command : String) (timeout : Nat) (ext : SimpleExt)
    (hallow : isCommandAllowed st.allowedCommands command = true)
    (hpath : checkPathRestrictions st.restrictedPaths command = true)
    (hout : ext.outcome = .timesOut) :
    executeSimpleCommand st command timeout ext =
      .ok ([.kill, .wait],
        { success := false,
          error_message :=
            some ("Command timed out after " ++ toString timeout ++ " seconds"),
          execution_time := ext.t1 - ext.t0 }) := by
  unfold executeSimpleCommand
  rw [if_neg (by simp [hallow]), if_neg (by simp [hpath]), hout]

/-- C4 witness: a concrete timed-out command. -/
theorem c4_witness :
    executeSimpleCommand
      { activeSessions := [], currentSessionId := none,
        allowedCommands := none, restrictedPaths := [] }
      "sleep 100" 30 { outcome := .timesOut, t0 := 0, t1 := 5 } =
      .ok ([.kill, .wait],
        { success := false,
          error_message := some "Command timed out after 30 seconds",
          execution_time := 5 }) := by
  rw [c4_timeout_kill_wait_response _ _ _ _ (by decide) (by decide) rfl]
  simp
  rfl

/-- C6: when the one-shot process completes before the timeout, the
response has `success = (exit_code == 0)`, the process exit code, and both
byte streams decoded by the total replacement decoder, so decoding cannot
fail the operation. -/
theorem c6_normal_completion_response
    (st : ExecState) (command : String) (timeout : Nat) (ext : SimpleExt)
    (ec : Int) (out err : List Nat)
    (hallow : isCommandAllowed st.allowedCommands command = true)
    (hpath : checkPathRestrictions st.restrictedPaths command = true)
    (hout : ext.outcome = .completes ec out err) :
    executeSimpleCommand st command timeout ext =
      .ok ([], { success := ec == 0, exit_code := some ec,
                 stdout := mkStr (utf8DecodeReplace out),
                 stderr := mkStr (utf8DecodeReplace err),
                 execution_time := ext.t1 - ext.t0 }) := by
  unfold executeSimpleCommand
  rw [if_neg (by simp [hallow]), if_neg (by simp [hpath]), hout]

/-- C6 witness: a completed command whose stdout bytes contain an invalid
UTF-8 byte, decoded with a replacement character rather than failing. -/
theorem c6_witness :
    executeSimpleCommand
      { activeSessions := [], currentSessionId := none,
        allowedCommands := none, restrictedPaths := [] }
      "ls -la" 30 { outcome := .completes 0 [104, 255, 105] [], t0 := 0, t1 := 3 } =
      .ok ([], { success := true, exit_code := some 0,
                 stdout := mkStr [Char.ofNat 104, replChar, Char.ofNat 105],
                 stderr := "", execution_time := 3 }) := by
  rw [c6_normal_completion_response _ _ _ _ 0 [104, 255, 105] []
    (by decide) (by decide) rfl]
  simp [mkStr, utf8DecodeReplace, replChar, isCont]

/-- C8: `terminate_session` on an unknown id returns `False` and changes
nothing; on a present id it returns `True`, the entry becomes absent, and
an immediately repeated terminate returns `False`.  The child teardown in
`_cleanup_session` is wrapped in `try/except Exception: pass`
(`childTerminate` in this model), so terminating an already-dead session
cannot raise: the operation is a total function on every state, dead
children included. -/
theorem c8_terminate_session_behaviour (st : ExecState) (sid : String) :
    (List.lookup sid st.activeSessions = none →
       terminateSession st sid = (st, false)) ∧
    (∀ sess, List.lookup sid st.activeSessions = some sess →
       (terminateSession st sid).2 = true ∧
       List.lookup sid (terminateSession st sid).1.activeSessions = none ∧
       terminateSession (terminateSession st sid).1 sid =
         ((terminateSession st sid).1, false)) := by
  constructor
  · intro h
    simp [terminateSession, h]
  · intro sess h
    have h1 : terminateSession st sid = (cleanupSession st sid, true) := by
      simp [terminateSession, h]
    have h2 : List.lookup sid (cleanupSession st sid).activeSessions = none := by
      unfold cleanupSession
      rw [h]
      exact lookup_filter_self
    rw [h1]
    exact ⟨rfl, h2, by simp [terminateSession, h2]⟩

/-- C8 witness: on a dead-child session, terminate returns `True`, removes
the entry, and a repeated terminate returns `False`. -/
theorem c8_witness :
    (terminateSession
      { activeSessions :=
          [("sid1", { child := { alive := false, termRaises := true },
                      command := "bash", createdAt := "t1",
                      lastActivity := "t1" })],
        currentSessionId := some "sid1", allowedCommands := none,
        restrictedPaths := [] } "sid1").2 = true ∧
    List.lookup "sid1"
      (terminateSession
        { activeSessions :=
            [("sid1", { child := { alive := false, termRaises := true },
                        command := "bash", createdAt := "t1",
                        lastActivity := "t1" })],
          currentSessionId := some "sid1", allowedCommands := none,
          restrictedPaths := [] } "sid1").1.activeSessions = none ∧
    terminateSession
      (terminateSession
        { activeSessions :=
            [("sid1", { child := { alive := false, termRaises := true },
                        command := "bash", createdAt := "t1",
                        lastActivity := "t1" })],
          currentSessionId := some "sid1", allowedCommands := none,
          restrictedPaths := [] } "sid1").1 "sid1" =
      ((terminateSession
        { activeSessions :=
            [("sid1", { child := { alive := false, termRaises := true },
                        command := "bash", createdAt := "t1",
                        lastActivity := "t1" })],
          currentSessionId := some "sid1", allowedCommands := none,
          restrictedPaths := [] } "sid1").1, false) :=
  (c8_terminate_session_behaviour
    { activeSessions :=
        [("sid1", { child := { alive := false, termRaises := true },
                    command := "bash", createdAt := "t1",
                    lastActivity := "t1" })],
      currentSessionId := some "sid1", allowedCommands := none,
      restrictedPaths := [] } "sid1").2
    { child := { alive := false, termRaises := true }, command := "bash",
      createdAt := "t1", lastActivity := "t1" } (by decide)

/-- C10: because `cleanup_inactive_sessions` removes every dead entry
before the metadata is built, every `SessionInfo` produced by
`list_active_sessions` or `get_session_info` carries status `"active"`;
`"terminated"` is never returned. -/
theorem c10_session_info_always_active (st : ExecState) :
    (∀ info ∈ (listActiveSessions st).2, info.status = "active") ∧
    (∀ sid info, (getSessionInfo st sid).2 = some info →
       info.status = "active") := by
  constructor
  · intro info hinfo
    unfold listActiveSessions at hinfo
    simp only [List.mem_map] at hinfo
    obtain ⟨p, hp, rfl⟩ := hinfo
    have halive := (cleanupInactive_mem hp).2
    simp [halive]
  · intro sid info hinfo
    simp only [getSessionInfo] at hinfo
    cases hl : List.lookup sid (cleanupInactiveSessions st).activeSessions with
    | none => rw [hl] at hinfo; simp at hinfo
    | some sess =>
      rw [hl] at hinfo
      simp only [Option.some.injEq] at hinfo
      have hmem := lookup_some_mem hl
      have halive : sess.child.alive = true := (cleanupInactive_mem hmem).2
      rw [← hinfo]
      simp [halive]

/-- C10 witness: a concrete state with one live and one dead entry, on
which both operations report only `"active"`. -/
theorem c10_witness :
    (getSessionInfo
      { activeSessions :=
          [("sid1", { child := { alive := true }, command := "python3",
                      createdAt := "t1", lastActivity := "t2" })],
        currentSessionId := some "sid1", allowedCommands := none,
        restrictedPaths := [] } "sid1").2 =
      some { session_id := "sid1", command := "python3", status := "active",
             created_at := "t1", last_activity := "t2" } ∧
    ({ session_id := "sid1", command := "python3", status := "active",
       created_at := "t1", last_activity := "t2" } : SessionInfo).status =
      "active" :=
  ⟨by decide,
   (c10_session_info_always_active
     { activeSessions :=
         [("sid1", { child := { alive := true }, command := "python3",
                     createdAt := "t1", lastActivity := "t2" })],
       currentSessionId := some "sid1", allowedCommands := none,
       restrictedPaths := [] }).2 "sid1"
     { session_id := "sid1", command := "python3", status := "active",
       created_at := "t1", last_activity := "t2" } (by decide)⟩

theorem cleanupSession_absent {st : ExecState} {sid : String} :
    List.lookup sid (cleanupSession st sid).activeSessions = none := by
  unfold cleanupSession
  cases h : List.lookup sid st.activeSessions with
  | none => exact h
  | some sess => exact lookup_filter_self

theorem listActive_absent {st : ExecState} {sid : String}
    (h : List.lookup sid st.activeSessions = none) :
    ∀ info ∈ (listActiveSessions st).2, info.session_id ≠ sid := by
  intro info hinfo
  unfold listActiveSessions at hinfo
  simp only [List.mem_map] at hinfo
  obtain ⟨p, hp, rfl⟩ := hinfo
  exact lookup_none_keys (cleanupInactive_absent h) p hp

/-- C5: in a live session (id matches `current_session_id` and is present),
with the write itself succeeding: observing end-of-stream on the bounded
read tears the session down (its id is no longer a key and is absent from
the next `list_active_sessions`) and reports `is_interactive = false`;
every other read outcome (data, or a timeout with no output) reports
`is_interactive = true`. -/
theorem c5_eof_teardown_and_interactive_flag
    (st : ExecState) (sid : String) (sess : Session) (inp : String)
    (nl : Bool) (ext : SendExt)
    (hcur : st.currentSessionId = some sid)
    (hlook : List.lookup sid st.activeSessions = some sess)
    (hsend : ext.sendRaises = none) :
    (ext.read = .eof →
       (sendInteractiveInput st sid inp nl ext).2.is_interactive = false ∧
       List.lookup sid
         (sendInteractiveInput st sid inp nl ext).1.activeSessions = none ∧
       ∀ info ∈ (listActiveSessions
           (sendInteractiveInput st sid inp nl ext).1).2,
         info.session_id ≠ sid) ∧
    (∀ bs, ext.read = .data bs →
       (sendInteractiveInput st sid inp nl ext).2.is_interactive = true) ∧
    (ext.read = .timedOut →
       (sendInteractiveInput st sid inp nl ext).2.is_interactive = true) := by
  refine ⟨?_, ?_, ?_⟩
  · intro hread
    have hres : sendInteractiveInput st sid inp nl ext =
        (cleanupSession
          { st with activeSessions :=
              updateActivity st.activeSessions sid ext.nowTs } sid,
         { success := true, stdout := "",
           execution_time := ext.t1 - ext.t0, session_id := some sid,
           is_interactive := false }) := by
      simp [sendInteractiveInput, hcur, hlook, hsend, hread]
    rw [hres]
    exact ⟨rfl, cleanupSession_absent, listActive_absent cleanupSession_absent⟩
  · intro bs hread
    simp [sendInteractiveInput, hcur, hlook, hsend, hread]
  · intro hread
    simp [sendInteractiveInput, hcur, hlook, hsend, hread]

/-- C5 witness: a concrete live session observing end-of-stream. -/
theorem c5_witness :
    (sendInteractiveInput
      { activeSessions :=
          [("sid1", { child := { alive := true }, command := "python3",
                      createdAt := "t1", lastActivity := "t1" })],
        currentSessionId := some "sid1", allowedCommands := none,
        restrictedPaths := [] }
      "sid1" "exit()" true
      { sendRaises := none, read := .eof, nowTs := "t3", t0 := 0,
        t1 := 1 }).2.is_interactive = false ∧
    List.lookup "sid1"
      (sendInteractiveInput
        { activeSessions :=
            [("sid1", { child := { alive := true }, command := "python3",
                        createdAt := "t1", lastActivity := "t1" })],
          currentSessionId := some "sid1", allowedCommands := none,
          restrictedPaths := [] }
        "sid1" "exit()" true
        { sendRaises := none, read := .eof, nowTs := "t3", t0 := 0,
          t1 := 1 }).1.activeSessions = none ∧
    ∀ info ∈ (listActiveSessions
        (sendInteractiveInput
          { activeSessions :=
              [("sid1", { child := { alive := true }, command := "python3",
                          createdAt := "t1", lastActivity := "t1" })],
            currentSessionId := some "sid1", allowedCommands := none,
            restrictedPaths := [] }
          "sid1" "exit()" true
          { sendRaises := none, read := .eof, nowTs := "t3", t0 := 0,
            t1 := 1 }).1).2, info.session_id ≠ "sid1" :=
  (c5_eof_teardown_and_interactive_flag
    { activeSessions :=
        [("sid1", { child := { alive := true }, command := "python3",
                    createdAt := "t1", lastActivity := "t1" })],
      currentSessionId := some "sid1", allowedCommands := none,
      restrictedPaths := [] }
    "sid1"
    { child := { alive := true }, command := "python3",
      createdAt := "t1", lastActivity := "t1" }
    "exit()" true
    { sendRaises := none, read := .eof, nowTs := "t3", t0 := 0, t1 := 1 }
    rfl (by decide) rfl).1 rfl

/-- C7 counterexample: the claim ties the allow-list check to shell-quoting
tokenization, but `_is_command_allowed` uses plain `str.split()`.  For the
command `"echo" hi` (with double quotes) under allow-list `["echo"]`, the
shell-quoting first token is `echo`, a member of the allow-list, yet the
engine rejects the command "not allowed" (naming the raw word `"echo"`). -/
theorem c7_counterexample :
    shlexSplit "\"echo\" hi".data = .ok ["echo".data, "hi".data] ∧
    ("echo" ∈ (["echo"] : List String)) ∧
    isCommandAllowed (some ["echo"]) "\"echo\" hi" = false ∧
    executeSimpleCommand
      { activeSessions := [], currentSessionId := none,
        allowedCommands := some ["echo"], restrictedPaths := [] }
      "\"echo\" hi" 30 { outcome := .timesOut, t0 := 0, t1 := 0 } =
      .ok ([], { success := false, execution_time := 0,
                 error_message :=
                   some "Command not allowed: \"echo\"" }) :=
  ⟨rfl, by decide, by decide, rfl⟩

/-- C7 (amended): the allow-list gate tokenizes by plain whitespace
splitting, not shell quoting.  With no allow-list every command passes the
gate; with a non-empty allow-list the gate passes exactly when the first
whitespace-delimited word is a member; a failing gate yields the not-allowed
response naming that word; and a passing gate makes the operation behave
exactly as if no allow-list were configured (so it is never rejected solely
for "not allowed"). -/
theorem c7_allowlist_uses_whitespace_first_word
    (st : ExecState) (command : String) (timeout : Nat) (ext : SimpleExt) :
    (st.allowedCommands = none →
       isCommandAllowed st.allowedCommands command = true) ∧
    (∀ l w ws, st.allowedCommands = some l → l ≠ [] →
       pySplit command.data = w :: ws →
       isCommandAllowed st.allowedCommands command = l.contains (mkStr w)) ∧
    (∀ l w ws, st.allowedCommands = some l → l ≠ [] →
       pySplit command.data = w :: ws → l.contains (mkStr w) = false →
       executeSimpleCommand st command timeout ext =
         .ok ([], { success := false, execution_time := 0,
                    error_message :=
                      some ("Command not allowed: " ++ mkStr w) })) ∧
    (isCommandAllowed st.allowedCommands command = true →
       executeSimpleCommand st command timeout ext =
         executeSimpleCommand { st with allowedCommands := none }
           command timeout ext) := by
  refine ⟨?_, ?_, ?_, ?_⟩
  · intro h
    simp [isCommandAllowed, h]
  · intro l w ws hl hne hsplit
    have hemp : l.isEmpty = false := by
      cases l with
      | nil => cases hne rfl
      | cons a as => rfl
    simp [isCommandAllowed, hl, hemp, hsplit]
  · intro l w ws hl hne hsplit hcont
    have hemp : l.isEmpty = false := by
      cases l with
      | nil => cases hne rfl
      | cons a as => rfl
    have hgate : isCommandAllowed st.allowedCommands command = false := by
      simp [isCommandAllowed, hl, hemp, hsplit]
      simpa using hcont
    unfold executeSimpleCommand
    rw [if_pos (by simp [hgate])]
    unfold pySplitHead
    rw [hsplit]
  · intro hgate
    have hnone : isCommandAllowed (none : Option (List String)) command = true := rfl
    simp [executeSimpleCommand, hgate, hnone]

/-- C7 witness: the amended rejection branch at a concrete input. -/
theorem c7_witness :
    executeSimpleCommand
      { activeSessions := [], currentSessionId := none,
        allowedCommands := some ["echo"], restrictedPaths := [] }
      "\"echo\" hi" 30 { outcome := .timesOut, t0 := 0, t1 := 0 } =
      .ok ([], { success := false, execution_time := 0,
                 error_message :=
                   some ("Command not allowed: " ++ mkStr "\"echo\"".data) }) :=
  (c7_allowlist_uses_whitespace_first_word
    { activeSessions := [], currentSessionId := none,
      allowedCommands := some ["echo"], restrictedPaths := [] }
    "\"echo\" hi" 30 { outcome := .timesOut, t0 := 0, t1 := 0 }).2.2.1
    ["echo"] "\"echo\"".data ["hi".data] rfl (by decide) (by decide) (by decide)

theorem updateActivity_regWf {st : ExecState} {k ts : String} (h : RegWf st) :
    RegWf { st with activeSessions := updateActivity st.activeSessions k ts } := by
  rw [regWf_iff] at h ⊢
  refine ⟨fun sid hsid => ?_, ?_⟩
  · rw [lookup_updateActivity]
    exact h.1 sid hsid
  · rw [updateActivity_length]
    exact h.2

/-- C9: after every registry operation the registry is well-formed:
`current_session_id` is `None` or a present key, and `active_sessions`
holds at most one entry (for `start_interactive_command` this is asserted
on the state of every non-crashing return). -/
theorem c9_registry_invariant_preserved (st : ExecState) (h : RegWf st) :
    (∀ command wd ext st2 sid resp,
       startInteractiveCommand st command wd ext = .ok (st2, sid, resp) →
       RegWf st2) ∧
    (∀ sid inp nl ext, RegWf (sendInteractiveInput st sid inp nl ext).1) ∧
    (∀ sid, RegWf (terminateSession st sid).1) ∧
    RegWf (cleanupInactiveSessions st) ∧
    (∀ sid, RegWf (getSessionInfo st sid).1) ∧
    RegWf (listActiveSessions st).1 := by
  have hclean := cleanupInactive_regWf h
  have hhas := hasActive_regWf hclean
  refine ⟨?_, ?_, ?_, hclean, ?_, ?_⟩
  · intro command wd ext st2 sid resp heq
    unfold startInteractiveCommand at heq
    by_cases hallow : isCommandAllowed st.allowedCommands command = true
    · rw [if_neg (by simp [hallow])] at heq
      by_cases hpath : checkPathRestrictions st.restrictedPaths command = true
      · rw [if_neg (by simp [hpath])] at heq
        simp only at heq
        cases hact : hasActiveSession (cleanupInactiveSessions st) with
        | mk b stAct =>
          rw [hact] at heq
          have hwfAct : RegWf stAct := by
            have hh := hasActive_regWf hclean
            rw [hact] at hh
            exact hh
          cases b with
          | true =>
            simp only at heq
            cases hc : stAct.currentSessionId with
            | none => rw [hc] at heq; simp at heq
            | some s =>
              rw [hc] at heq
              simp only at heq
              cases hl : List.lookup s stAct.activeSessions with
              | none => rw [hl] at heq; simp at heq
              | some sess =>
                rw [hl] at heq
                simp only at heq
                injection heq with heq2
                injection heq2 with heq3 _
                rw [← heq3]
                exact hwfAct
          | false =>
            simp only at heq
            cases hparse : shlexSplit command.data with
            | error m =>
              rw [hparse] at heq
              simp only at heq
              injection heq with heq2
              injection heq2 with heq3 _
              rw [← heq3]
              exact hwfAct
            | ok toks =>
              rw [hparse] at heq
              cases toks with
              | nil =>
                simp only at heq
                injection heq with heq2
                injection heq2 with heq3 _
                rw [← heq3]
                exact hwfAct
              | cons t0 ts =>
                simp only at heq
                cases hspawn : ext.spawn with
                | raises msg =>
                  rw [hspawn] at heq
                  simp only at heq
                  injection heq with heq2
                  injection heq2 with heq3 _
                  rw [← heq3]
                  exact hwfAct
                | ok child =>
                  rw [hspawn] at heq
                  simp only at heq
                  injection heq with heq2
                  injection heq2 with heq3 _
                  rw [← heq3]
                  rw [regWf_iff]
                  constructor
                  · intro s hs
                    simp only at hs
                    injection hs with hs
                    subst hs
                    simp [List.lookup_cons]
                  · simp
      · rw [if_pos (by simp [hpath])] at heq
        injection heq with heq2
        injection heq2 with heq3 _
        rw [← heq3]
        exact h
    · rw [if_pos (by simp [hallow])] at heq
      cases hsp : pySplitHead command with
      | error e => rw [hsp] at heq; simp at heq
      | ok w =>
        rw [hsp] at heq
        simp only at heq
        injection heq with heq2
        injection heq2 with heq3 _
        rw [← heq3]
        exact h
  · intro sid inp nl ext
    unfold sendInteractiveInput
    by_cases hguard : (some sid ≠ st.currentSessionId ∨
        (List.lookup sid st.activeSessions).isNone = true)
    · rw [if_pos hguard]
      exact h
    · rw [if_neg hguard]
      cases hl : List.lookup sid st.activeSessions with
      | none => exact h
      | some sess =>
        cases hsr : ext.sendRaises with
        | some msg => exact h
        | none =>
          have hup : RegWf
              ({ st with activeSessions :=
                   updateActivity st.activeSessions sid ext.nowTs }) :=
            updateActivity_regWf h
          cases hread : ext.read with
          | eof => exact cleanupSession_regWf hup
          | timedOut => exact hup
          | data bs => exact hup
  · intro sid
    unfold terminateSession
    by_cases hl : (List.lookup sid st.activeSessions).isNone = true
    · rw [if_pos hl]; exact h
    · rw [if_neg hl]; exact cleanupSession_regWf h
  · intro sid
    unfold getSessionInfo
    cases hl : List.lookup sid (cleanupInactiveSessions st).activeSessions with
    | none => simp only [hl]; exact hclean
    | some sess => simp only [hl]; exact hclean
  · exact hclean

/-- C9 witness: the invariant holds on a concrete state and is preserved by
a concrete sweep. -/
theorem c9_witness :
    RegWf (cleanupInactiveSessions
      { activeSessions :=
          [("sid1", { child := { alive := false }, command := "bash",
                      createdAt := "t1", lastActivity := "t1" })],
        currentSessionId := some "sid1", allowedCommands := none,
        restrictedPaths := [] }) :=
  (c9_registry_invariant_preserved
    { activeSessions :=
        [("sid1", { child := { alive := false }, command := "bash",
                    createdAt := "t1", lastActivity := "t1" })],
      currentSessionId := some "sid1", allowedCommands := none,
      restrictedPaths := [] } rfl).2.2.2.1

/-! ## Claim C2

The counterexample, and the lemmas relating the tokenizer to the
quote-annotation needed for the amended statement. -/

/-- C2 counterexample: `ls a;b` contains `;` outside quotes, its leading
shell token is the informational command `ls`, and its only remaining token
`a;b` is not a separator or redirection token — the exception case in which
the claim says validation accepts.  The validator nevertheless rejects with
a dangerous-pattern error, because the safe-command branch still scans the
raw remainder text for `;`. -/
theorem c2_counterexample :
    annotateQuotes (pyStrip "ls a;b".data) =
      some [('l', true), ('s', true), (' ', true), ('a', true), (';', true),
            ('b', true)] ∧
    maskedInfix [';']
      [('l', true), ('s', true), (' ', true), ('a', true), (';', true),
       ('b', true)] = true ∧
    shlexSplit (pyStrip "ls a;b".data) = .ok ["ls".data, "a;b".data] ∧
    safeCommands.contains "ls".data = true ∧
    (["a;b".data].all fun t => !isDangerToken t) = true ∧
    validateCommandSecurity "ls a;b" = .error (.dangerousPattern [';']) :=
  ⟨rfl, by decide, rfl, by decide, by decide, rfl⟩

/-- Annotation preserves the characters of the input. -/
theorem annotate_chars :
    ∀ (cs : List Char) (st : SState) (l : List (Char × Bool)),
      annotateAux st cs = some l → l.map Prod.fst = cs := by
  intro cs
  induction cs with
  | nil =>
    intro st l h
    unfold annotateAux at h
    by_cases hst : st = .ws ∨ st = .word
    · rw [if_pos hst] at h
      injection h with h
      rw [← h]
      rfl
    · rw [if_neg hst] at h
      cases h
  | cons c cs ih =>
    intro st l h
    unfold annotateAux at h
    cases han : annotateAux (shNext st c) cs with
    | none => rw [han] at h; cases h
    | some l2 =>
      rw [han] at h
      simp only at h
      injection h with h
      rw [← h]
      simp [ih (shNext st c) l2 han]

/-- A run from a non-`ws` state whose word is already non-empty (or whose
quoted flag is set) produces at least one token. -/
theorem shlex_good_nonempty :
    ∀ (cs : List Char) (st : SState) (tok : List Char) (q : Bool)
      (toks : List (List Char)),
      shlexAux st tok q cs = .ok toks →
      st ≠ .ws → (st = .word → (tok ≠ [] ∨ q = true)) →
      toks ≠ [] := by
  intro cs
  induction cs with
  | nil =>
    intro st tok q toks h hws hword
    cases st with
    | ws => exact absurd rfl hws
    | word =>
      unfold shlexAux at h
      have hcond : ¬(tok.isEmpty = true ∧ ¬q = true) := by
        rcases hword rfl with h1 | h1
        · intro hc; exact h1 (List.isEmpty_iff.mp hc.1)
        · intro hc; exact hc.2 h1
      rw [if_neg hcond] at h
      injection h with h
      rw [← h]
      simp
    | sq => cases h
    | dq => cases h
    | escWord => cases h
    | escDq => cases h
  | cons c cs ih =>
    intro st tok q toks h hws hword
    cases st with
    | ws => exact absurd rfl hws
    | word =>
      unfold shlexAux at h
      cases hcc : cclass c with
      | wsp =>
        rw [hcc] at h
        simp only at h
        have hcond : ¬(tok.isEmpty = true ∧ ¬q = true) := by
          rcases hword rfl with h1 | h1
          · intro hc; exact h1 (List.isEmpty_iff.mp hc.1)
          · intro hc; exact hc.2 h1
        rw [if_neg hcond] at h
        cases hrec : shlexAux .ws [] false cs with
        | error e => rw [hrec] at h; cases h
        | ok ts =>
          rw [hrec] at h
          injection h with h
          rw [← h]
          simp
      | squo =>
        rw [hcc] at h; simp only at h
        exact ih .sq tok q toks h (by simp) (by simp)
      | dquo =>
        rw [hcc] at h; simp only at h
        exact ih .dq tok q toks h (by simp) (by simp)
      | esc =>
        rw [hcc] at h; simp only at h
        exact ih .escWord tok q toks h (by simp) (by simp)
      | other =>
        rw [hcc] at h; simp only at h
        exact ih .word (tok ++ [c]) q toks h (by simp)
          (fun _ => Or.inl (by simp))
    | sq =>
      unfold shlexAux at h
      by_cases hc : c = sqChar
      · rw [if_pos hc] at h
        exact ih .word tok true toks h (by simp) (fun _ => Or.inr rfl)
      · rw [if_neg hc] at h
        exact ih .sq (tok ++ [c]) true toks h (by simp) (by simp)
    | dq =>
      unfold shlexAux at h
      by_cases hc : c = dqChar
      · rw [if_pos hc] at h
        exact ih .word tok true toks h (by simp) (fun _ => Or.inr rfl)
      · rw [if_neg hc] at h
        by_cases hb : c = bslChar
        · rw [if_pos hb] at h
          exact ih .escDq tok true toks h (by simp) (by simp)
        · rw [if_neg hb] at h
          exact ih .dq (tok ++ [c]) true toks h (by simp) (by simp)
    | escWord =>
      unfold shlexAux at h
      exact ih .word (tok ++ [c]) q toks h (by simp)
        (fun _ => Or.inl (by simp))
    | escDq =>
      unfold shlexAux at h
      exact ih .dq (tok ++ (if c = bslChar ∨ c = dqChar then [c]
        else [bslChar, c])) q toks h (by simp) (by simp)

/-- From any non-`ws` state, the word accumulated so far is a prefix of the
first emitted token. -/
theorem shlex_tok_prefix :
    ∀ (cs : List Char) (st : SState) (tok : List Char) (q : Bool)
      (t0 : List Char) (ts : List (List Char)),
      shlexAux st tok q cs = .ok (t0 :: ts) →
      st ≠ .ws → tok <+: t0 := by
  intro cs
  induction cs with
  | nil =>
    intro st tok q t0 ts h hws
    cases st with
    | ws => exact absurd rfl hws
    | word =>
      unfold shlexAux at h
      by_cases hcond : (tok.isEmpty = true ∧ ¬q = true)
      · rw [if_pos hcond] at h
        simp at h
      · rw [if_neg hcond] at h
        injection h with h
        injection h with h1 _
        rw [h1]
    | sq => cases h
    | dq => cases h
    | escWord => cases h
    | escDq => cases h
  | cons c cs ih =>
    intro st tok q t0 ts h hws
    cases st with
    | ws => exact absurd rfl hws
    | word =>
      unfold shlexAux at h
      cases hcc : cclass c with
      | wsp =>
        rw [hcc] at h
        simp only at h
        by_cases hcond : (tok.isEmpty = true ∧ ¬q = true)
        · rw [if_pos hcond] at h
          rw [List.isEmpty_iff.mp hcond.1]
          exact List.nil_prefix
        · rw [if_neg hcond] at h
          cases hrec : shlexAux .ws [] false cs with
          | error e => rw [hrec] at h; cases h
          | ok ts2 =>
            rw [hrec] at h
            injection h with h
            injection h with h1 _
            rw [h1]
      | squo =>
        rw [hcc] at h; simp only at h
        exact ih .sq tok q t0 ts h (by simp)
      | dquo =>
        rw [hcc] at h; simp only at h
        exact ih .dq tok q t0 ts h (by simp)
      | esc =>
        rw [hcc] at h; simp only at h
        exact ih .escWord tok q t0 ts h (by simp)
      | other =>
        rw [hcc] at h; simp only at h
        exact List.IsPrefix.trans ⟨[c], rfl⟩
          (ih .word (tok ++ [c]) q t0 ts h (by simp))
    | sq =>
      unfold shlexAux at h
      by_cases hc : c = sqChar
      · rw [if_pos hc] at h
        exact ih .word tok true t0 ts h (by simp)
      · rw [if_neg hc] at h
        exact List.IsPrefix.trans ⟨[c], rfl⟩
          (ih .sq (tok ++ [c]) true t0 ts h (by simp))
    | dq =>
      unfold shlexAux at h
      by_cases hc : c = dqChar
      · rw [if_pos hc] at h
        exact ih .word tok true t0 ts h (by simp)
      · rw [if_neg hc] at h
        by_cases hb : c = bslChar
        · rw [if_pos hb] at h
          exact ih .escDq tok true t0 ts h (by simp)
        · rw [if_neg hb] at h
          exact List.IsPrefix.trans ⟨[c], rfl⟩
            (ih .dq (tok ++ [c]) true t0 ts h (by simp))
    | escWord =>
      unfold shlexAux at h
      exact List.IsPrefix.trans ⟨[c], rfl⟩
        (ih .word (tok ++ [c]) q t0 ts h (by simp))
    | escDq =>
      unfold shlexAux at h
      exact List.IsPrefix.trans ⟨if c = bslChar ∨ c = dqChar then [c]
          else [bslChar, c], rfl⟩
        (ih .dq (tok ++ (if c = bslChar ∨ c = dqChar then [c]
          else [bslChar, c])) q t0 ts h (by simp))

/-- Slack accounting for the two-character append performed by the
double-quote escape state. -/
def slack : SState → Nat
  | .escDq => 1
  | _ => 0

/-- Key lemma: if the annotated input has a top-level plain character
(class `other`) at position `a.length`, then a successful run emits at
least one token, and that character either lands in the first token or its
position is at least the first token's length (up to the accumulated word
and the state slack). -/
theorem shlex_masked_first_token :
    ∀ (cs : List Char) (st : SState) (tok : List Char) (q : Bool)
      (toks : List (List Char)) (l a b : List (Char × Bool)) (c : Char),
      shlexAux st tok q cs = .ok toks →
      annotateAux st cs = some l →
      l = a ++ (c, true) :: b →
      cclass c = .other →
      ∃ t0 ts, toks = t0 :: ts ∧
        (c ∈ t0 ∨ t0.length ≤ tok.length + slack st + a.length) := by
  intro cs
  induction cs with
  | nil =>
    intro st tok q toks l a b c h hann hsplit hcc
    unfold annotateAux at hann
    by_cases hst : st = .ws ∨ st = .word
    · rw [if_pos hst] at hann
      injection hann with hann
      rw [← hann] at hsplit
      cases a <;> simp at hsplit
    · rw [if_neg hst] at hann; cases hann
  | cons c0 cs ih =>
    intro st tok q toks l a b c h hann hsplit hcc
    unfold annotateAux at hann
    cases han2 : annotateAux (shNext st c0) cs with
    | none => rw [han2] at hann; cases hann
    | some l2 =>
      rw [han2] at hann
      simp only at hann
      injection hann with hann
      cases a with
      | nil =>
        rw [← hann] at hsplit
        simp only [List.nil_append] at hsplit
        injection hsplit with hhead _
        injection hhead with hc0 hflag
        subst hc0
        have hst : st = .ws ∨ st = .word := of_decide_eq_true hflag
        rcases hst with rfl | rfl
        · unfold shlexAux at h
          rw [hcc] at h
          simp only at h
          have hne := shlex_good_nonempty cs .word [c0] q toks h (by simp)
            (fun _ => Or.inl (by simp))
          cases toks with
          | nil => exact absurd rfl hne
          | cons t0 ts =>
            have hpre := shlex_tok_prefix cs .word [c0] q t0 ts h (by simp)
            exact ⟨t0, ts, rfl, Or.inl (hpre.subset (by simp))⟩
        · unfold shlexAux at h
          rw [hcc] at h
          simp only at h
          have hne := shlex_good_nonempty cs .word (tok ++ [c0]) q toks h
            (by simp) (fun _ => Or.inl (by simp))
          cases toks with
          | nil => exact absurd rfl hne
          | cons t0 ts =>
            have hpre := shlex_tok_prefix cs .word (tok ++ [c0]) q t0 ts h
              (by simp)
            exact ⟨t0, ts, rfl, Or.inl (hpre.subset (by simp))⟩
      | cons hd a2 =>
        rw [← hann] at hsplit
        rw [List.cons_append] at hsplit
        injection hsplit with _ htail
        cases st with
        | ws =>
          unfold shlexAux at h
          cases hcc0 : cclass c0 with
          | wsp =>
            rw [hcc0] at h
            simp only at h
            simp only [shNext, hcc0] at han2
            by_cases hcond : (tok.isEmpty = true ∧ ¬q = true)
            · rw [if_pos hcond] at h
              obtain ⟨t0, ts, htoks, hd2⟩ :=
                ih .ws tok q toks l2 a2 b c h han2 htail hcc
              refine ⟨t0, ts, htoks, ?_⟩
              rcases hd2 with h2 | h2
              · exact Or.inl h2
              · refine Or.inr ?_
                simp only [slack] at h2 ⊢
                simp only [List.length_cons]
                omega
            · rw [if_neg hcond] at h
              cases hrec : shlexAux .ws [] false cs with
              | error e => rw [hrec] at h; cases h
              | ok ts2 =>
                rw [hrec] at h
                injection h with h
                refine ⟨tok, ts2, h.symm, Or.inr ?_⟩
                simp only [slack]
                omega
          | squo =>
            rw [hcc0] at h
            simp only at h
            simp only [shNext, hcc0] at han2
            obtain ⟨t0, ts, htoks, hd2⟩ :=
              ih .sq tok q toks l2 a2 b c h han2 htail hcc
            refine ⟨t0, ts, htoks, ?_⟩
            rcases hd2 with h2 | h2
            · exact Or.inl h2
            · refine Or.inr ?_
              simp only [slack] at h2 ⊢
              simp only [List.length_cons]
              omega
          | dquo =>
            rw [hcc0] at h
            simp only at h
            simp only [shNext, hcc0] at han2
            obtain ⟨t0, ts, htoks, hd2⟩ :=
              ih .dq tok q toks l2 a2 b c h han2 htail hcc
            refine ⟨t0, ts, htoks, ?_⟩
            rcases hd2 with h2 | h2
            · exact Or.inl h2
            · refine Or.inr ?_
              simp only [slack] at h2 ⊢
              simp only [List.length_cons]
              omega
          | esc =>
            rw [hcc0] at h
            simp only at h
            simp only [shNext, hcc0] at han2
            obtain ⟨t0, ts, htoks, hd2⟩ :=
              ih .escWord tok q toks l2 a2 b c h han2 htail hcc
            refine ⟨t0, ts, htoks, ?_⟩
            rcases hd2 with h2 | h2
            · exact Or.inl h2
            · refine Or.inr ?_
              simp only [slack] at h2 ⊢
              simp only [List.length_cons]
              omega
          | other =>
            rw [hcc0] at h
            simp only at h
            simp only [shNext, hcc0] at han2
            obtain ⟨t0, ts, htoks, hd2⟩ :=
              ih .word [c0] q toks l2 a2 b c h han2 htail hcc
            refine ⟨t0, ts, htoks, ?_⟩
            rcases hd2 with h2 | h2
            · exact Or.inl h2
            · refine Or.inr ?_
              simp only [slack] at h2 ⊢
              simp only [List.length_cons, List.length_singleton, List.length_nil] at h2 ⊢
              omega
        | word =>
          unfold shlexAux at h
          cases hcc0 : cclass c0 with
          | wsp =>
            rw [hcc0] at h
            simp only at h
            simp only [shNext, hcc0] at han2
            by_cases hcond : (tok.isEmpty = true ∧ ¬q = true)
            · rw [if_pos hcond] at h
              obtain ⟨t0, ts, htoks, hd2⟩ :=
                ih .ws tok q toks l2 a2 b c h han2 htail hcc
              refine ⟨t0, ts, htoks, ?_⟩
              rcases hd2 with h2 | h2
              · exact Or.inl h2
              · refine Or.inr ?_
                simp only [slack] at h2 ⊢
                simp only [List.length_cons]
                omega
            · rw [if_neg hcond] at h
              cases hrec : shlexAux .ws [] false cs with
              | error e => rw [hrec] at h; cases h
              | ok ts2 =>
                rw [hrec] at h
                injection h with h
                refine ⟨tok, ts2, h.symm, Or.inr ?_⟩
                simp only [slack]
                omega
          | squo =>
            rw [hcc0] at h
            simp only at h
            simp only [shNext, hcc0] at han2
            obtain ⟨t0, ts, htoks, hd2⟩ :=
              ih .sq tok q toks l2 a2 b c h han2 htail hcc
            refine ⟨t0, ts, htoks, ?_⟩
            rcases hd2 with h2 | h2
            · exact Or.inl h2
            · refine Or.inr ?_
              simp only [slack] at h2 ⊢
              simp only [List.length_cons]
              omega
          | dquo =>
            rw [hcc0] at h
            simp only at h
            simp only [shNext, hcc0] at han2
            obtain ⟨t0, ts, htoks, hd2⟩ :=
              ih .dq tok q toks l2 a2 b c h han2 htail hcc
            refine ⟨t0, ts, htoks, ?_⟩
            rcases hd2 with h2 | h2
            · exact Or.inl h2
            · refine Or.inr ?_
              simp only [slack] at h2 ⊢
              simp only [List.length_cons]
              omega
          | esc =>
            rw [hcc0] at h
            simp only at h
            simp only [shNext, hcc0] at han2
            obtain ⟨t0, ts, htoks, hd2⟩ :=
              ih .escWord tok q toks l2 a2 b c h han2 htail hcc
            refine ⟨t0, ts, htoks, ?_⟩
            rcases hd2 with h2 | h2
            · exact Or.inl h2
            · refine Or.inr ?_
              simp only [slack] at h2 ⊢
              simp only [List.length_cons]
              omega
          | other =>
            rw [hcc0] at h
            simp only at h
            simp only [shNext, hcc0] at han2
            obtain ⟨t0, ts, htoks, hd2⟩ :=
              ih .word (tok ++ [c0]) q toks l2 a2 b c h han2 htail hcc
            refine ⟨t0, ts, htoks, ?_⟩
            rcases hd2 with h2 | h2
            · exact Or.inl h2
            · refine Or.inr ?_
              simp only [slack] at h2 ⊢
              simp only [List.length_cons, List.length_append,
                List.length_singleton, List.length_nil] at h2 ⊢
              omega
        | sq =>
          unfold shlexAux at h
          by_cases hc : c0 = sqChar
          · rw [if_pos hc] at h
            have hnext : shNext .sq c0 = .word := by simp [shNext, hc]
            rw [hnext] at han2
            obtain ⟨t0, ts, htoks, hd2⟩ :=
              ih .word tok true toks l2 a2 b c h han2 htail hcc
            refine ⟨t0, ts, htoks, ?_⟩
            rcases hd2 with h2 | h2
            · exact Or.inl h2
            · refine Or.inr ?_
              simp only [slack] at h2 ⊢
              simp only [List.length_cons]
              omega
          · rw [if_neg hc] at h
            have hnext : shNext .sq c0 = .sq := by simp [shNext, hc]
            rw [hnext] at han2
            obtain ⟨t0, ts, htoks, hd2⟩ :=
              ih .sq (tok ++ [c0]) true toks l2 a2 b c h han2 htail hcc
            refine ⟨t0, ts, htoks, ?_⟩
            rcases hd2 with h2 | h2
            · exact Or.inl h2
            · refine Or.inr ?_
              simp only [slack] at h2 ⊢
              simp only [List.length_cons, List.length_append,
                List.length_singleton, List.length_nil] at h2 ⊢
              omega
        | dq =>
          unfold shlexAux at h
          by_cases hc : c0 = dqChar
          · rw [if_pos hc] at h
            have hnext : shNext .dq c0 = .word := by simp [shNext, hc]
            rw [hnext] at han2
            obtain ⟨t0, ts, htoks, hd2⟩ :=
              ih .word tok true toks l2 a2 b c h han2 htail hcc
            refine ⟨t0, ts, htoks, ?_⟩
            rcases hd2 with h2 | h2
            · exact Or.inl h2
            · refine Or.inr ?_
              simp only [slack] at h2 ⊢
              simp only [List.length_cons]
              omega
          · rw [if_neg hc] at h
            by_cases hb : c0 = bslChar
            · rw [if_pos hb] at h
              have hnext : shNext .dq c0 = .escDq := by
                simp [shNext, hc, hb]
                decide
              rw [hnext] at han2
              obtain ⟨t0, ts, htoks, hd2⟩ :=
                ih .escDq tok true toks l2 a2 b c h han2 htail hcc
              refine ⟨t0, ts, htoks, ?_⟩
              rcases hd2 with h2 | h2
              · exact Or.inl h2
              · refine Or.inr ?_
                simp only [slack] at h2 ⊢
                simp only [List.length_cons]
                omega
            · rw [if_neg hb] at h
              have hnext : shNext .dq c0 = .dq := by simp [shNext, hc, hb]
              rw [hnext] at han2
              obtain ⟨t0, ts, htoks, hd2⟩ :=
                ih .dq (tok ++ [c0]) true toks l2 a2 b c h han2 htail hcc
              refine ⟨t0, ts, htoks, ?_⟩
              rcases hd2 with h2 | h2
              · exact Or.inl h2
              · refine Or.inr ?_
                simp only [slack] at h2 ⊢
                simp only [List.length_cons, List.length_append,
                  List.length_singleton, List.length_nil] at h2 ⊢
                omega
        | escWord =>
          unfold shlexAux at h
          have hnext : shNext .escWord c0 = .word := rfl
          rw [hnext] at han2
          obtain ⟨t0, ts, htoks, hd2⟩ :=
            ih .word (tok ++ [c0]) q toks l2 a2 b c h han2 htail hcc
          refine ⟨t0, ts, htoks, ?_⟩
          rcases hd2 with h2 | h2
          · exact Or.inl h2
          · refine Or.inr ?_
            simp only [slack] at h2 ⊢
            simp only [List.length_cons, List.length_append,
              List.length_singleton, List.length_nil] at h2 ⊢
            omega
        | escDq =>
          unfold shlexAux at h
          have hnext : shNext .escDq c0 = .dq := rfl
          rw [hnext] at han2
          obtain ⟨t0, ts, htoks, hd2⟩ :=
            ih .dq (tok ++ (if c0 = bslChar ∨ c0 = dqChar then [c0]
              else [bslChar, c0])) q toks l2 a2 b c h han2 htail hcc
          refine ⟨t0, ts, htoks, ?_⟩
          rcases hd2 with h2 | h2
          · exact Or.inl h2
          · refine Or.inr ?_
            have hlen : (tok ++ (if c0 = bslChar ∨ c0 = dqChar then [c0]
                else [bslChar, c0])).length ≤ tok.length + 2 := by
              by_cases hcase : (c0 = bslChar ∨ c0 = dqChar)
              · rw [if_pos hcase]; simp
              · rw [if_neg hcase]; simp
            simp only [slack] at h2 ⊢
            simp only [List.length_cons]
            omega

/-- None of the informational commands contains a separator character. -/
theorem safe_no_sep {t : List Char} (h : safeCommands.contains t = true) :
    ';' ∉ t ∧ '&' ∉ t := by
  have hmem : t ∈ safeCommands := by simpa using h
  fin_cases hmem <;> decide

/-- C2 (amended): for every command whose stripped text tokenizes and
contains `;`, `&&`, `||` or `|` outside quotes, validation rejects with a
dangerous-pattern error — including in the claim's exception case: a
leading informational command does not lead to acceptance, because `|` (and
`||`) are rejected by the operator-substring scan that runs before the
exception, and `;`/`&&` are still found by the raw remainder scan of the
safe-command branch. -/
theorem c2_separators_always_rejected
    (v : String) (l : List (Char × Bool)) (toks : List (List Char))
    (hann : annotateQuotes (pyStrip v.data) = some l)
    (htoks : shlexSplit (pyStrip v.data) = .ok toks)
    (hmask : maskedInfix [';'] l = true ∨ maskedInfix ['&', '&'] l = true ∨
             maskedInfix ['|', '|'] l = true ∨ maskedInfix ['|'] l = true) :
    ∃ p, validateCommandSecurity v = .error (.dangerousPattern p) := by
  have hchars : l.map Prod.fst = pyStrip v.data := annotate_chars _ _ _ hann
  have hvne : pyStrip v.data ≠ [] := by
    intro hv
    rw [hv] at hchars
    have hl : l = [] := by simpa using hchars
    subst hl
    rcases hmask with hm | hm | hm | hm <;> simp [maskedInfix] at hm
  have hvdne : v.data ≠ [] := by
    intro hd
    apply hvne
    rw [hd]
    rfl
  have hif : ¬(v.data.isEmpty = true ∨ (pyStrip v.data).isEmpty = true) := by
    simp [hvne, hvdne]
  rcases hmask with hm | hm | hm | hm
  · -- the `;` case
    obtain ⟨s, t, hst⟩ := of_decide_eq_true hm
    obtain ⟨t0, ts, htoks_eq, hdisj⟩ :=
      shlex_masked_first_token (pyStrip v.data) .ws [] false toks l
        s ((';', true) :: t).tail ';' htoks hann
        (by rw [← hst]; simp) (by decide)
    subst htoks_eq
    have hvdecomp : pyStrip v.data =
        s.map Prod.fst ++ ';' :: t.map Prod.fst := by
      rw [← hchars, ← hst]
      simp
    have hsubstr : pyContains [';'] (pyStrip v.data) = true := by
      apply decide_eq_true
      rw [hvdecomp]
      exact ⟨s.map Prod.fst, t.map Prod.fst, by simp⟩
    simp only [validateCommandSecurity]
    rw [if_neg hif, htoks]
    cases hfind1 : dangerousOperatorSubstrings.find?
        (fun p => pyContains p (pyStrip v.data)) with
    | some p => exact ⟨p, by simp⟩
    | none =>
      simp only
      by_cases hsafe : safeCommands.contains t0 = true
      · rw [if_pos hsafe]
        cases hfind2 : ts.find? isDangerToken with
        | some tk => exact ⟨tk, by simp⟩
        | none =>
          simp only
          cases hfind3 : dangerousSubstrings.find?
              (fun p => pyContains p (pyStrip v.data)) with
          | some p => exact ⟨p, by simp⟩
          | none =>
            simp only
            have hrem : pyContains [';']
                ((pyStrip v.data).drop t0.length) = true := by
              rcases hdisj with hin | hlen
              · exact absurd hin (safe_no_sep hsafe).1
              · apply decide_eq_true
                have hslen : t0.length ≤ (s.map Prod.fst).length := by
                  simpa [slack] using hlen
                rw [hvdecomp, List.drop_append_of_le_length hslen]
                exact ⟨(s.map Prod.fst).drop t0.length, t.map Prod.fst,
                  by simp⟩
            cases hfind4 : separatorPatterns.find?
                (fun p => pyContains p ((pyStrip v.data).drop t0.length)) with
            | some p => exact ⟨p, by simp⟩
            | none =>
              exfalso
              have := List.find?_eq_none.mp hfind4 [';'] (by decide)
              simp [hrem] at this
      · rw [if_neg hsafe]
        cases hfind2 : (t0 :: ts).find? isDangerToken with
        | some tk => exact ⟨tk, by simp⟩
        | none =>
          simp only
          cases hfind3 : separatorPatterns.find?
              (fun p => pyContains p (pyStrip v.data)) with
          | some p => exact ⟨p, by simp⟩
          | none =>
            exfalso
            have := List.find?_eq_none.mp hfind3 [';'] (by decide)
            simp [hsubstr] at this
  · -- the `&&` case
    obtain ⟨s, t, hst⟩ := of_decide_eq_true hm
    obtain ⟨t0, ts, htoks_eq, hdisj⟩ :=
      shlex_masked_first_token (pyStrip v.data) .ws [] false toks l
        s (('&', true) :: t) '&' htoks hann
        (by rw [← hst]; simp) (by decide)
    subst htoks_eq
    have hvdecomp : pyStrip v.data =
        s.map Prod.fst ++ '&' :: '&' :: t.map Prod.fst := by
      rw [← hchars, ← hst]
      simp
    have hsubstr : pyContains ['&', '&'] (pyStrip v.data) = true := by
      apply decide_eq_true
      rw [hvdecomp]
      exact ⟨s.map Prod.fst, t.map Prod.fst, by simp⟩
    simp only [validateCommandSecurity]
    rw [if_neg hif, htoks]
    cases hfind1 : dangerousOperatorSubstrings.find?
        (fun p => pyContains p (pyStrip v.data)) with
    | some p => exact ⟨p, by simp⟩
    | none =>
      simp only
      by_cases hsafe : safeCommands.contains t0 = true
      · rw [if_pos hsafe]
        cases hfind2 : ts.find? isDangerToken with
        | some tk => exact ⟨tk, by simp⟩
        | none =>
          simp only
          cases hfind3 : dangerousSubstrings.find?
              (fun p => pyContains p (pyStrip v.data)) with
          | some p => exact ⟨p, by simp⟩
          | none =>
            simp only
            have hrem : pyContains ['&', '&']
                ((pyStrip v.data).drop t0.length) = true := by
              rcases hdisj with hin | hlen
              · exact absurd hin (safe_no_sep hsafe).2
              · apply decide_eq_true
                have hslen : t0.length ≤ (s.map Prod.fst).length := by
                  simpa [slack] using hlen
                rw [hvdecomp, List.drop_append_of_le_length hslen]
                exact ⟨(s.map Prod.fst).drop t0.length, t.map Prod.fst,
                  by simp⟩
            cases hfind4 : separatorPatterns.find?
                (fun p => pyContains p ((pyStrip v.data).drop t0.length)) with
            | some p => exact ⟨p, by simp⟩
            | none =>
              exfalso
              have := List.find?_eq_none.mp hfind4 ['&', '&'] (by decide)
              simp [hrem] at this
      · rw [if_neg hsafe]
        cases hfind2 : (t0 :: ts).find? isDangerToken with
        | some tk => exact ⟨tk, by simp⟩
        | none =>
          simp only
          cases hfind3 : separatorPatterns.find?
              (fun p => pyContains p (pyStrip v.data)) with
          | some p => exact ⟨p, by simp⟩
          | none =>
            exfalso
            have := List.find?_eq_none.mp hfind3 ['&', '&'] (by decide)
            simp [hsubstr] at this
  · -- the `||` case: `|` occurs as a substring
    obtain ⟨s, t, hst⟩ := of_decide_eq_true hm
    obtain ⟨t0, ts, htoks_eq, _⟩ :=
      shlex_masked_first_token (pyStrip v.data) .ws [] false toks l
        s (('|', true) :: t) '|' htoks hann
        (by rw [← hst]; simp) (by decide)
    subst htoks_eq
    have hsubstr : pyContains ['|'] (pyStrip v.data) = true := by
      apply decide_eq_true
      have h1 : (['|', '|'] : List Char) <:+: pyStrip v.data := by
        rw [← hchars]
        have := (of_decide_eq_true hm).map Prod.fst
        simpa using this
      exact List.IsInfix.trans ⟨['|'], [], by simp⟩ h1
    simp only [validateCommandSecurity]
    rw [if_neg hif, htoks]
    cases hfind1 : dangerousOperatorSubstrings.find?
        (fun p => pyContains p (pyStrip v.data)) with
    | some p => exact ⟨p, by simp⟩
    | none =>
      exfalso
      have := List.find?_eq_none.mp hfind1 ['|'] (by decide)
      simp [hsubstr] at this
  · -- the `|` case
    obtain ⟨s, t, hst⟩ := of_decide_eq_true hm
    obtain ⟨t0, ts, htoks_eq, _⟩ :=
      shlex_masked_first_token (pyStrip v.data) .ws [] false toks l
        s (('|', true) :: t).tail '|' htoks hann
        (by rw [← hst]; simp) (by decide)
    subst htoks_eq
    have hsubstr : pyContains ['|'] (pyStrip v.data) = true := by
      apply decide_eq_true
      rw [← hchars]
      have := (of_decide_eq_true hm).map Prod.fst
      simpa using this
    simp only [validateCommandSecurity]
    rw [if_neg hif, htoks]
    cases hfind1 : dangerousOperatorSubstrings.find?
        (fun p => pyContains p (pyStrip v.data)) with
    | some p => exact ⟨p, by simp⟩
    | none =>
      exfalso
      have := List.find?_eq_none.mp hfind1 ['|'] (by decide)
      simp [hsubstr] at this

/-- C2 witness: the amended statement applied to the concrete command
`ls a;b`, whose `;` sits outside quotes after an informational command. -/
theorem c2_witness :
    ∃ p, validateCommandSecurity "ls a;b" = .error (.dangerousPattern p) :=
  c2_separators_always_rejected "ls a;b"
    [('l', true), ('s', true), (' ', true), ('a', true), (';', true),
     ('b', true)]
    ["ls".data, "a;b".data]
    rfl rfl (Or.inl (by decide))
